import Mathlib

/-!
Shallow embedding of the Battlesnake move-decision engine from src/main.rs,
together with spec-side definitions used to compare the implementation with
its natural-language specification.

Conventions of the embedding:
* Rust i32 coordinates and dimensions become Int.
* The Vec<Vec<bool>> occupancy matrix becomes a Finset of blocked (x, y)
  pairs (the set of cells the source writes true); writes are guarded by
  the same bounds checks as the source.
* f64 payoffs become Rat (the payoff arithmetic is exact small-denominator
  arithmetic; no NaN can arise, matching the fact that the source only
  adds, subtracts and divides by positive integers).
* Rust panics (slice underflow on an empty body, Option::unwrap) become
  Option.none; get_move therefore returns Option String, with none marking
  a panic branch.
* Iterator::max_by_key / max_by return the LAST maximal element on ties,
  which maxByKeyLast reproduces.
* The flood-fill while-loop is given explicit fuel 1 + 5 * width * height;
  the termination theorem for C9 shows the result is fuel-independent from
  this bound on.
-/

/-- Board coordinate, from struct Coord (x, y : i32). -/
structure Coord where
  x : Int
  y : Int
deriving DecidableEq

/-- One competing snake, from struct Battlesnake (fields unused by the
decision logic - name, latency, shout, squad - are omitted). -/
structure Battlesnake where
  id : String
  health : Int
  body : List Coord
  head : Coord
  length : Int
deriving DecidableEq

/-- Board state, from struct Board. -/
structure Board where
  height : Int
  width : Int
  food : List Coord
  hazards : List Coord
  snakes : List Battlesnake
deriving DecidableEq

/-- One decision request, from struct GameRequest (game and turn metadata
are unused by the decision logic and omitted). -/
structure GameRequest where
  board : Board
  you : Battlesnake
deriving DecidableEq

/-- Occupancy model, from struct FloodFillChecker: the Vec<Vec<bool>> board
is represented by the set of (x, y) pairs holding true. -/
structure FloodFillChecker where
  blockedCells : Finset (Int × Int)
  width : Int
  height : Int

/-- A coordinate pair is inside the board of a checker. -/
def FloodFillChecker.inBoundsPair (c : FloodFillChecker) (p : Int × Int) : Prop :=
  0 ≤ p.1 ∧ p.1 < c.width ∧ 0 ≤ p.2 ∧ p.2 < c.height

instance (c : FloodFillChecker) (p : Int × Int) : Decidable (c.inBoundsPair p) := by
  unfold FloodFillChecker.inBoundsPair; infer_instance

/-- FloodFillChecker::new - mark every snake body segment and every hazard
cell as occupied, each write guarded by the source's bounds check. -/
def FloodFillChecker.new (gs : GameRequest) : FloodFillChecker :=
  let w := gs.board.width
  let h := gs.board.height
  let afterSnakes :=
    gs.board.snakes.foldl
      (fun acc snake =>
        snake.body.foldl
          (fun acc bp =>
            if 0 ≤ bp.x ∧ bp.x < w ∧ 0 ≤ bp.y ∧ bp.y < h then
              insert (bp.x, bp.y) acc
            else acc)
          acc)
      (∅ : Finset (Int × Int))
  let afterHazards :=
    gs.board.hazards.foldl
      (fun acc hz =>
        if 0 ≤ hz.x ∧ hz.x < w ∧ 0 ≤ hz.y ∧ hz.y < h then
          insert (hz.x, hz.y) acc
        else acc)
      afterSnakes
  { blockedCells := afterHazards, width := w, height := h }

/-- The four neighbor offsets, in the source's order [(0,1),(1,0),(0,-1),(-1,0)]. -/
def floodDirections : List (Int × Int) := [(0, 1), (1, 0), (0, -1), (-1, 0)]

/-- The neighbors enqueued when a cell is first visited: for each of the
four offsets, the new coordinate if it is in bounds, unblocked and not in
the visited set (the visited set already holding the popped cell). -/
def stepNbrs (c : FloodFillChecker) (coord : Coord)
    (visited : Finset (Int × Int)) : List Coord :=
  floodDirections.filterMap fun d =>
    let nx := coord.x + d.1
    let ny := coord.y + d.2
    if 0 ≤ nx ∧ nx < c.width ∧ 0 ≤ ny ∧ ny < c.height ∧
        (nx, ny) ∉ c.blockedCells ∧ (nx, ny) ∉ visited then
      some (Coord.mk nx ny)
    else none

/-- One iteration body of flood_fill's while-loop: pop the queue front; if
already visited, continue; else insert into visited and push each in-bounds,
unblocked, unvisited orthogonal neighbor. Fuel bounds the iteration count. -/
def floodLoop (c : FloodFillChecker) :
    Nat → Finset (Int × Int) → List Coord → Finset (Int × Int)
  | 0, visited, _ => visited
  | _ + 1, visited, [] => visited
  | fuel + 1, visited, coord :: rest =>
    if (coord.x, coord.y) ∈ visited then
      floodLoop c fuel visited rest
    else
      floodLoop c fuel (insert (coord.x, coord.y) visited)
        (rest ++ stepNbrs c coord (insert (coord.x, coord.y) visited))

/-- Canonical fuel for flood_fill: enough for the loop to drain its queue
(theorem flood fill stability below shows any larger fuel gives the same
result). -/
def floodFuel (c : FloodFillChecker) : Nat :=
  1 + 5 * (c.width.toNat * c.height.toNat)

/-- FloodFillChecker::flood_fill - 0 for an out-of-bounds or blocked start,
else the number of visited cells when the BFS queue drains. -/
def FloodFillChecker.flood_fill (c : FloodFillChecker) (start : Coord) : Nat :=
  if start.x < 0 ∨ start.x ≥ c.width ∨ start.y < 0 ∨ start.y ≥ c.height ∨
      (start.x, start.y) ∈ c.blockedCells then
    0
  else
    (floodLoop c (floodFuel c) ∅ [start]).card

/-- FloodFillChecker::get_safe_moves - the four candidate directions, in
order up, down, left, right, each paired with its flood-fill space. -/
def FloodFillChecker.get_safe_moves (c : FloodFillChecker) (head : Coord) :
    List (String × Nat) :=
  let moves : List (String × Coord) :=
    [("up", Coord.mk head.x (head.y + 1)),
     ("down", Coord.mk head.x (head.y - 1)),
     ("left", Coord.mk (head.x - 1) head.y),
     ("right", Coord.mk (head.x + 1) head.y)]
  moves.map fun m => (m.1, c.flood_fill m.2)

/-- Rust Iterator::max_by_key / max_by: the maximal element under the key,
the LAST one when several are equally maximal. -/
def maxByKeyLast {α β : Type} [LinearOrder β] (key : α → β) (l : List α) :
    Option α :=
  l.foldl
    (fun acc a =>
      match acc with
      | none => some a
      | some b => if key b ≤ key a then some a else some b)
    none

/-- BilinearDuel::calculate_payoff, with f64 modelled as Rat. The two body
slices body[..len-1] are total here (dropLast); the surrounding Option
guard in create_payoff_matrix models the slice panic on an empty body. -/
def calculate_payoff (gs : GameRequest) (my_pos opp_pos : Coord)
    (my_snake opponent : Battlesnake) : Rat :=
  let board_width := gs.board.width
  let board_height := gs.board.height
  let p0 : Rat := 0
  let p1 := if my_pos.x < 0 ∨ my_pos.x ≥ board_width ∨ my_pos.y < 0 ∨
      my_pos.y ≥ board_height then p0 - 1000 else p0
  let p2 := if opp_pos.x < 0 ∨ opp_pos.x ≥ board_width ∨ opp_pos.y < 0 ∨
      opp_pos.y ≥ board_height then p1 + 1000 else p1
  let p3 := my_snake.body.dropLast.foldl
    (fun acc bp => if my_pos.x = bp.x ∧ my_pos.y = bp.y then acc - 1000 else acc) p2
  let p4 := opponent.body.dropLast.foldl
    (fun acc bp =>
      let acc1 := if my_pos.x = bp.x ∧ my_pos.y = bp.y then acc - 500 else acc
      if opp_pos.x = bp.x ∧ opp_pos.y = bp.y then acc1 + 500 else acc1) p3
  let p5 := if my_pos.x = opp_pos.x ∧ my_pos.y = opp_pos.y then
      (if my_snake.length ≥ opponent.length then p4 + 100 else p4 - 100) else p4
  let p6 := gs.board.food.foldl
    (fun acc food =>
      let my_distance := (my_pos.x - food.x).natAbs + (my_pos.y - food.y).natAbs
      let opp_distance := (opp_pos.x - food.x).natAbs + (opp_pos.y - food.y).natAbs
      if my_distance < opp_distance then acc + 10 / ((my_distance : Rat) + 1)
      else acc - 5 / ((opp_distance : Rat) + 1)) p5
  if my_snake.health < opponent.health then p6 + 5 else p6

/-- The duel-mode move offsets, in the source's order up, down, left, right. -/
def duelMoves : List Coord :=
  [Coord.mk 0 1, Coord.mk 0 (-1), Coord.mk (-1) 0, Coord.mk 1 0]

/-- The direction names in the source's fixed order. -/
def moveNames : List String := ["up", "down", "left", "right"]

/-- BilinearDuel::create_payoff_matrix - the 4x4 matrix of payoffs, rows our
moves, columns opponent moves. none models the slice panic inside
calculate_payoff when either body is empty. -/
def create_payoff_matrix (gs : GameRequest) (my_snake opponent : Battlesnake) :
    Option (Fin 4 → Fin 4 → Rat) :=
  if my_snake.body.isEmpty ∨ opponent.body.isEmpty then none
  else
    some fun i j =>
      let my_move := duelMoves.get (Fin.cast (by decide) i)
      let opp_move := duelMoves.get (Fin.cast (by decide) j)
      let my_new_pos := Coord.mk (my_snake.head.x + my_move.x) (my_snake.head.y + my_move.y)
      let opp_new_pos := Coord.mk (opponent.head.x + opp_move.x) (opponent.head.y + opp_move.y)
      calculate_payoff gs my_new_pos opp_new_pos my_snake opponent

/-- BilinearDuel::minimax_strategy - per-row mean payoff, then normalized by
the sum when the sum is positive, else a uniform 1/4 each. -/
def minimax_strategy (m : Fin 4 → Fin 4 → Rat) : List Rat :=
  let strategy : List Rat :=
    [(m 0 0 + m 0 1 + m 0 2 + m 0 3) / 4,
     (m 1 0 + m 1 1 + m 1 2 + m 1 3) / 4,
     (m 2 0 + m 2 1 + m 2 2 + m 2 3) / 4,
     (m 3 0 + m 3 1 + m 3 2 + m 3 3) / 4]
  let s := strategy.sum
  if s > 0 then strategy.map (fun v => v / s)
  else strategy.map (fun _ => 1 / 4)

/-- The normalized row values the duel mode ranks: opponent lookup, payoff
matrix, row-mean strategy. none models a panic branch. -/
def duel_strategy (gs : GameRequest) : Option (List Rat) := do
  let opponent ← gs.board.snakes.find? (fun s => s.id ≠ gs.you.id)
  let m ← create_payoff_matrix gs gs.you opponent
  pure (minimax_strategy m)

/-- BilinearDuel::solve_bilinear_duel - warn-and-return "up" unless exactly
two snakes; otherwise rank the four normalized row values and return the
direction of the (last) arg-max index. none models a panic branch
(Option::unwrap on the opponent lookup; the final moves[idx] index is in
range, proved below). -/
def solve_bilinear_duel (gs : GameRequest) : Option String :=
  if gs.board.snakes.length ≠ 2 then some "up"
  else do
    let strategy ← duel_strategy gs
    let best_move_idx := ((maxByKeyLast Prod.snd strategy.enum).map Prod.fst).getD 0
    let mv ← moveNames.get? best_move_idx
    pure mv

/-- get_move - dispatch on snake count: flood-fill max-space for 3+ snakes,
bilinear duel for exactly 2, flood-fill max-space otherwise. The
unwrap_or_else("up") fallbacks become getD "up". -/
def get_move (gs : GameRequest) : Option String :=
  let num_snakes := gs.board.snakes.length
  if num_snakes ≥ 3 then
    let flood := FloodFillChecker.new gs
    let safe_moves := flood.get_safe_moves gs.you.head
    some (((maxByKeyLast Prod.snd safe_moves).map Prod.fst).getD "up")
  else if num_snakes = 2 then
    solve_bilinear_duel gs
  else
    let flood := FloodFillChecker.new gs
    let safe_moves := flood.get_safe_moves gs.you.head
    some (((maxByKeyLast Prod.snd safe_moves).map Prod.fst).getD "up")

/-! ## Spec-side definitions

The following definitions are written from the specification's words, not
from the source; they exist to compare the implementation against the
spec's description (refinement claims C1, C5). Each is named spec- or
claimed- to keep the two sides apart. -/

/-- Manhattan distance between two coordinates. -/
def manhattan (p q : Coord) : Nat :=
  (p.x - q.x).natAbs + (p.y - q.y).natAbs

/-- Spec 4.6 safety check: the resulting position is inside the board and
does not coincide with any agent's body segment other than that agent's own
vacating tail (last body element). -/
def specSafe (gs : GameRequest) (pos : Coord) : Prop :=
  (0 ≤ pos.x ∧ pos.x < gs.board.width ∧ 0 ≤ pos.y ∧ pos.y < gs.board.height) ∧
  ∀ s ∈ gs.board.snakes, pos ∉ s.body.dropLast

instance (gs : GameRequest) (pos : Coord) : Decidable (specSafe gs pos) := by
  unfold specSafe; infer_instance

/-- Spec 4.1 occupancy grid: in-bounds hazards plus in-bounds non-tail body
segments of every agent (the last element of each body is passable). -/
def specBlocked (gs : GameRequest) : Finset (Int × Int) :=
  let inb : Coord → Bool := fun c =>
    decide (0 ≤ c.x ∧ c.x < gs.board.width ∧ 0 ≤ c.y ∧ c.y < gs.board.height)
  ((gs.board.hazards.filter inb).map (fun c => (c.x, c.y))).toFinset ∪
  ((gs.board.snakes.map fun s =>
      (s.body.dropLast.filter inb).map fun c => (c.x, c.y)).flatten).toFinset

/-- The spec's occupancy grid packaged as a checker, so the source's
flood fill can be run over it (spec 4.2 describes the same traversal). -/
def specChecker (gs : GameRequest) : FloodFillChecker :=
  { blockedCells := specBlocked gs, width := gs.board.width, height := gs.board.height }

/-- The four candidate directions as a tag, spec 3 Candidate. -/
inductive Dir
  | up
  | down
  | left
  | right
deriving DecidableEq

/-- The unit offset of a candidate direction (up = +y, down = -y,
left = -x, right = +x). -/
def Dir.offset : Dir → Coord
  | .up => Coord.mk 0 1
  | .down => Coord.mk 0 (-1)
  | .left => Coord.mk (-1) 0
  | .right => Coord.mk 1 0

/-- The resulting position of a candidate direction from the self head. -/
def dirPos (gs : GameRequest) (d : Dir) : Coord :=
  Coord.mk (gs.you.head.x + d.offset.x) (gs.you.head.y + d.offset.y)

/-- Spec 4.3: the first-encountered food at minimal Manhattan distance. -/
def nearestFood (foods : List Coord) (pos : Coord) : Option Coord :=
  foods.foldl
    (fun acc f =>
      match acc with
      | none => some f
      | some g => if manhattan pos f < manhattan pos g then some f else some g)
    none

/-- Spec 4.3: preferred direction toward a food cell - the axis of larger
absolute offset, ties toward the y-axis. -/
def specPreferredDir (pos food : Coord) : Dir :=
  let dx := food.x - pos.x
  let dy := food.y - pos.y
  if dy.natAbs < dx.natAbs then (if 0 < dx then .right else .left)
  else (if 0 < dy then .up else .down)

/-- Spec 4.3 food term: (100 - distance) scaled by the health multiplier,
contributed only when the candidate direction is the preferred one. -/
noncomputable def specFoodTerm (gs : GameRequest) (d : Dir) (pos : Coord) : ℝ :=
  match nearestFood gs.board.food pos with
  | none => 0
  | some f =>
    if specPreferredDir pos f = d then
      (100 - (manhattan pos f : ℝ)) *
        (if gs.you.health < 25 then 3 else if gs.you.health < 50 then 3 / 2 else 1)
    else 0

/-- Spec 4.4 threat term: -150 per nearby not-shorter opponent head within
Manhattan distance 2, +50 per nearby shorter one. -/
noncomputable def specThreat (gs : GameRequest) (pos : Coord) : ℝ :=
  ((gs.board.snakes.filter fun s =>
      decide (s.id ≠ gs.you.id ∧ manhattan s.head pos ≤ 2)).map
    fun s => if gs.you.body.length ≤ s.body.length then (-150 : ℝ) else 50).sum

/-- Spec 4.5 center term: 25 - 2 x Euclidean distance to the board center. -/
noncomputable def specCenter (gs : GameRequest) (pos : Coord) : ℝ :=
  25 - 2 * Real.sqrt (((pos.x : ℝ) - (gs.board.width : ℝ) / 2) ^ 2 +
    ((pos.y : ℝ) - (gs.board.height : ℝ) / 2) ^ 2)

/-- Spec 4.6 candidate score: bottom (negative infinity) for an unsafe
candidate, else 5 x reachable space + food term + threat term + center
term. -/
noncomputable def specScore (gs : GameRequest) (d : Dir) : EReal :=
  if specSafe gs (dirPos gs d) then
    (((5 * ((specChecker gs).flood_fill (dirPos gs d) : ℝ) +
        specFoodTerm gs d (dirPos gs d) + specThreat gs (dirPos gs d) +
        specCenter gs (dirPos gs d)) : ℝ) : EReal)
  else
    ⊥

/-- Claim C5's payoff formula, written from the claim's words; its +500
clause fires when the opponent's new position lies on the SELF agent's
non-tail body, and its head-to-head clause compares body lengths. -/
def claimedPayoff (gs : GameRequest) (my_pos opp_pos : Coord)
    (my_snake opponent : Battlesnake) : Rat :=
  (if my_pos.x < 0 ∨ my_pos.x ≥ gs.board.width ∨ my_pos.y < 0 ∨
      my_pos.y ≥ gs.board.height then (-1000 : Rat) else 0) +
  (if opp_pos.x < 0 ∨ opp_pos.x ≥ gs.board.width ∨ opp_pos.y < 0 ∨
      opp_pos.y ≥ gs.board.height then (1000 : Rat) else 0) +
  (-1000) * (my_snake.body.dropLast.filter fun bp =>
      decide (my_pos.x = bp.x ∧ my_pos.y = bp.y)).length +
  (-500) * (opponent.body.dropLast.filter fun bp =>
      decide (my_pos.x = bp.x ∧ my_pos.y = bp.y)).length +
  500 * (my_snake.body.dropLast.filter fun bp =>
      decide (opp_pos.x = bp.x ∧ opp_pos.y = bp.y)).length +
  (if my_pos.x = opp_pos.x ∧ my_pos.y = opp_pos.y then
    (if my_snake.body.length ≥ opponent.body.length then (100 : Rat) else -100)
  else 0) +
  ((gs.board.food.map fun food =>
      let my_distance := (my_pos.x - food.x).natAbs + (my_pos.y - food.y).natAbs
      let opp_distance := (opp_pos.x - food.x).natAbs + (opp_pos.y - food.y).natAbs
      if my_distance < opp_distance then (10 : Rat) / ((my_distance : Rat) + 1)
      else -5 / ((opp_distance : Rat) + 1)).sum) +
  (if my_snake.health < opponent.health then (5 : Rat) else 0)

/-! ## Analysis definitions -/

/-- The in-bounds cells of a checker as a finite set. -/
def boundsFinset (c : FloodFillChecker) : Finset (Int × Int) :=
  Finset.Ico 0 c.width ×ˢ Finset.Ico 0 c.height

/-- A cell the flood fill may stand on: in bounds and unblocked. -/
def FreeCell (c : FloodFillChecker) (p : Int × Int) : Prop :=
  c.inBoundsPair p ∧ p ∉ c.blockedCells

instance (c : FloodFillChecker) (p : Int × Int) : Decidable (FreeCell c p) := by
  unfold FreeCell; infer_instance

/-- Orthogonal adjacency through one of the four offsets. -/
def Adj (p q : Int × Int) : Prop :=
  ∃ d ∈ floodDirections, q = (p.1 + d.1, p.2 + d.2)

/-- One flood-fill move: both endpoints free, orthogonally adjacent. -/
def FloodStep (c : FloodFillChecker) (p q : Int × Int) : Prop :=
  FreeCell c p ∧ FreeCell c q ∧ Adj p q

/-- The free cells reachable from the start cell by orthogonal moves
through free cells, the start included when free. -/
def reachSet (c : FloodFillChecker) (start : Coord) : Set (Int × Int) :=
  {p | FreeCell c p ∧ Relation.ReflTransGen (FloodStep c) (start.x, start.y) p}

/-- Loop potential: queue length plus five times the number of in-bounds
cells not yet visited; each loop iteration strictly decreases it, so it
bounds the remaining iteration count. -/
def phi (c : FloodFillChecker) (visited : Finset (Int × Int))
    (queue : List Coord) : Nat :=
  queue.length + 5 * (boundsFinset c \ visited).card

/-- The element of a list that a last-wins maximum selection returns: all
earlier elements have key at most its key, all later ones strictly less. -/
def LastArgmax {α β : Type} [LinearOrder β] (key : α → β) (l : List α)
    (a : α) : Prop :=
  ∃ l₁ l₂, l = l₁ ++ a :: l₂ ∧ (∀ b ∈ l₁, key b ≤ key a) ∧
    ∀ b ∈ l₂, key b < key a

/-- Structural validity of a request, spec 6: positive dimensions, the self
identifier borne by exactly one listed snake, all bodies non-empty. -/
def ValidSnapshot (gs : GameRequest) : Prop :=
  0 < gs.board.width ∧ 0 < gs.board.height ∧
  gs.board.snakes.countP (fun s => s.id == gs.you.id) = 1 ∧
  gs.you.body ≠ [] ∧ ∀ s ∈ gs.board.snakes, s.body ≠ []

instance (gs : GameRequest) : Decidable (ValidSnapshot gs) := by
  unfold ValidSnapshot; infer_instance

/-! ## Concrete snapshots used by counterexamples and witnesses -/

/-- A single-segment snake at a given cell. -/
def mkSnake (id : String) (body : List Coord) (head : Coord) : Battlesnake :=
  { id := id, health := 100, body := body, head := head,
    length := (body.length : Int) }

/-- A 1 x 1 board, one snake filling it: all four candidate moves leave the
board, so every candidate's flood-fill space is 0. -/
def cexAllFatal : GameRequest :=
  { board := { height := 1, width := 1, food := [], hazards := [],
               snakes := [mkSnake "me" [Coord.mk 0 0] (Coord.mk 0 0)] },
    you := mkSnake "me" [Coord.mk 0 0] (Coord.mk 0 0) }

/-- A 3 x 1 board, one snake in the middle: left and right tie at the
maximal flood-fill space of 1. -/
def cexTieMax : GameRequest :=
  { board := { height := 1, width := 3, food := [], hazards := [],
               snakes := [mkSnake "me" [Coord.mk 1 0] (Coord.mk 1 0)] },
    you := mkSnake "me" [Coord.mk 1 0] (Coord.mk 1 0) }

/-- A 4 x 4 board, one single-segment snake at (2,3): down, left and right
tie at flood-fill space 15, and (2,2) is the exact board center. -/
def cexScoring : GameRequest :=
  { board := { height := 4, width := 4, food := [], hazards := [],
               snakes := [mkSnake "me" [Coord.mk 2 3] (Coord.mk 2 3)] },
    you := mkSnake "me" [Coord.mk 2 3] (Coord.mk 2 3) }

/-- A 3 x 3 board, one two-segment snake: its tail occupies (1,0). -/
def cexTail : GameRequest :=
  { board := { height := 3, width := 3, food := [], hazards := [],
               snakes := [mkSnake "me" [Coord.mk 0 0, Coord.mk 1 0] (Coord.mk 0 0)] },
    you := mkSnake "me" [Coord.mk 0 0, Coord.mk 1 0] (Coord.mk 0 0) }

/-- The self snake of the duel counterexample: head (0,0), body trailing
upward, so (0,1) is a non-tail body segment of the SELF snake. -/
def cexDuelMe : Battlesnake :=
  mkSnake "me" [Coord.mk 0 0, Coord.mk 0 1, Coord.mk 0 2] (Coord.mk 0 0)

/-- The opponent of the duel counterexample: head (1,1), one move left of
which lands exactly on the self snake's non-tail segment (0,1). -/
def cexDuelOpp : Battlesnake :=
  mkSnake "opp" [Coord.mk 1 1, Coord.mk 2 1] (Coord.mk 1 1)

/-- A 5 x 5 two-snake request for the duel payoff counterexample. -/
def cexDuel : GameRequest :=
  { board := { height := 5, width := 5, food := [], hazards := [],
               snakes := [cexDuelMe, cexDuelOpp] },
    you := cexDuelMe }

/-- An entirely open 2 x 2 checker. -/
def cgFree : FloodFillChecker :=
  { blockedCells := ∅, width := 2, height := 2 }

/-- The fold step underlying maxByKeyLast, named so lemmas can speak about
intermediate folds. -/
def maxStep {α β : Type} [LinearOrder β] (key : α → β) (acc : Option α)
    (a : α) : Option α :=
  match acc with
  | none => some a
  | some b => if key b ≤ key a then some a else some b

/-- The new-head position of the row (or column) move of a payoff cell. -/
def duelCellPos (head : Coord) (i : Fin 4) : Coord :=
  let m := duelMoves.get (Fin.cast (by decide) i)
  Coord.mk (head.x + m.x) (head.y + m.y)

/-! Closed-form decomposition of the duel payoff, used to state what each
payoff cell sums to. -/

/-- Boundary-violation part of the payoff: -1000 when the self agent's new
position leaves the board, +1000 when the opponent's does. -/
def boundary_term (gs : GameRequest) (my_pos opp_pos : Coord) : Rat :=
  (if my_pos.x < 0 ∨ my_pos.x ≥ gs.board.width ∨ my_pos.y < 0 ∨
      my_pos.y ≥ gs.board.height then (-1000 : Rat) else 0) +
  (if opp_pos.x < 0 ∨ opp_pos.x ≥ gs.board.width ∨ opp_pos.y < 0 ∨
      opp_pos.y ≥ gs.board.height then (1000 : Rat) else 0)

/-- Minus 1000 per self non-tail body segment the self new position lands on. -/
def my_body_term (my_snake : Battlesnake) (my_pos : Coord) : Rat :=
  -1000 * ((my_snake.body.dropLast.filter fun bp =>
    decide (my_pos.x = bp.x ∧ my_pos.y = bp.y)).length : Rat)

/-- Minus 500 per opponent non-tail segment the self new position lands
on, and plus 500 per opponent non-tail segment the opponent's own new
position lands on. -/
def opp_body_term (opponent : Battlesnake) (my_pos opp_pos : Coord) : Rat :=
  -500 * ((opponent.body.dropLast.filter fun bp =>
    decide (my_pos.x = bp.x ∧ my_pos.y = bp.y)).length : Rat) +
  500 * ((opponent.body.dropLast.filter fun bp =>
    decide (opp_pos.x = bp.x ∧ opp_pos.y = bp.y)).length : Rat)

/-- Head-to-head part: +100 when the self length field is at least the
opponent's, else -100, only when both new positions coincide. -/
def head_to_head_term (my_snake opponent : Battlesnake)
    (my_pos opp_pos : Coord) : Rat :=
  if my_pos.x = opp_pos.x ∧ my_pos.y = opp_pos.y then
    (if my_snake.length ≥ opponent.length then (100 : Rat) else -100)
  else 0

/-- Per-food part: 10/(d+1) for food the self agent ends strictly closer
to, else -5/(d+1) with the opponent's distance. -/
def food_term (gs : GameRequest) (my_pos opp_pos : Coord) : Rat :=
  (gs.board.food.map fun food =>
    let my_distance := (my_pos.x - food.x).natAbs + (my_pos.y - food.y).natAbs
    let opp_distance := (opp_pos.x - food.x).natAbs + (opp_pos.y - food.y).natAbs
    if my_distance < opp_distance then (10 : Rat) / ((my_distance : Rat) + 1)
    else -5 / ((opp_distance : Rat) + 1)).sum

/-- Flat +5 when the self agent's health is strictly lower. -/
def health_term (my_snake opponent : Battlesnake) : Rat :=
  if my_snake.health < opponent.health then (5 : Rat) else 0

/-! ## Properties of last-wins maximum selection -/

theorem maxByKeyLast_eq_foldl {α β : Type} [LinearOrder β] (key : α → β)
    (l : List α) : maxByKeyLast key l = l.foldl (maxStep key) none := by
  unfold maxByKeyLast maxStep
  rfl

theorem foldl_maxStep_some {α β : Type} [LinearOrder β] (key : α → β) :
    ∀ (l : List α) (b : α), ∃ a, l.foldl (maxStep key) (some b) = some a := by
  intro l
  induction l with
  | nil => exact fun b => ⟨b, rfl⟩
  | cons x xs ih =>
    intro b
    simp only [List.foldl_cons, maxStep]
    split
    · exact ih x
    · exact ih b

theorem maxByKeyLast_isSome {α β : Type} [LinearOrder β] (key : α → β)
    (l : List α) (hl : l ≠ []) : ∃ a, maxByKeyLast key l = some a := by
  rcases l with _ | ⟨x, xs⟩
  · exact absurd rfl hl
  · rw [maxByKeyLast_eq_foldl]
    simp only [List.foldl_cons, maxStep]
    exact foldl_maxStep_some key xs x

theorem lastArgmax_le {α β : Type} [LinearOrder β] {key : α → β}
    {l : List α} {a : α} (h : LastArgmax key l a) : ∀ b ∈ l, key b ≤ key a := by
  obtain ⟨l₁, l₂, rfl, h₁, h₂⟩ := h
  intro b hb
  rcases List.mem_append.1 hb with hb | hb
  · exact h₁ b hb
  · rcases List.mem_cons.1 hb with rfl | hb
    · exact le_refl _
    · exact (h₂ b hb).le

theorem lastArgmax_mem {α β : Type} [LinearOrder β] {key : α → β}
    {l : List α} {a : α} (h : LastArgmax key l a) : a ∈ l := by
  obtain ⟨l₁, l₂, rfl, -, -⟩ := h
  simp

theorem maxByKeyLast_lastArgmax {α β : Type} [LinearOrder β] (key : α → β) :
    ∀ (l : List α) (a : α), maxByKeyLast key l = some a → LastArgmax key l a := by
  intro l
  induction l using List.reverseRecOn with
  | nil => intro a h; simp [maxByKeyLast] at h
  | append_singleton l x ih =>
    intro a h
    rw [maxByKeyLast_eq_foldl, List.foldl_append] at h
    simp only [List.foldl_cons, List.foldl_nil] at h
    rcases hm : l.foldl (maxStep key) none with _ | b
    · rcases l with _ | ⟨y, ys⟩
      · simp only [List.foldl_nil, maxStep] at hm h
        cases h
        exact ⟨[], [], rfl, by simp, by simp⟩
      · simp only [List.foldl_cons, maxStep] at hm
        obtain ⟨v, hv⟩ := foldl_maxStep_some key ys y
        rw [hv] at hm
        cases hm
    · rw [hm] at h
      have hb : LastArgmax key l b := ih b (by rw [maxByKeyLast_eq_foldl]; exact hm)
      simp only [maxStep] at h
      by_cases hle : key b ≤ key x
      · rw [if_pos hle] at h
        cases h
        refine ⟨l, [], rfl, ?_, by simp⟩
        intro c hc
        exact le_trans (lastArgmax_le hb c hc) hle
      · rw [if_neg hle] at h
        cases h
        obtain ⟨l₁, l₂, rfl, h₁, h₂⟩ := hb
        refine ⟨l₁, l₂ ++ [x], by simp, h₁, ?_⟩
        intro c hc
        rcases List.mem_append.1 hc with hc | hc
        · exact h₂ c hc
        · rcases List.mem_singleton.1 hc with rfl
          exact lt_of_not_le hle

/-! ## The occupancy grid -/

theorem mem_foldl_union {α γ : Type} [DecidableEq γ]
    (g : Finset γ → α → Finset γ) (Q : α → γ → Prop)
    (hg : ∀ acc x p, p ∈ g acc x ↔ p ∈ acc ∨ Q x p) :
    ∀ (l : List α) (acc : Finset γ) (p : γ),
      p ∈ l.foldl g acc ↔ p ∈ acc ∨ ∃ x ∈ l, Q x p := by
  intro l
  induction l with
  | nil => simp
  | cons x xs ih =>
    intro acc p
    simp only [List.foldl_cons]
    rw [ih, hg]
    constructor
    · rintro ((h | h) | ⟨y, hy, hQ⟩)
      · exact Or.inl h
      · exact Or.inr ⟨x, List.mem_cons_self x xs, h⟩
      · exact Or.inr ⟨y, List.mem_cons_of_mem x hy, hQ⟩
    · rintro (h | ⟨y, hy, hQ⟩)
      · exact Or.inl (Or.inl h)
      · rcases List.mem_cons.1 hy with rfl | hy
        · exact Or.inl (Or.inr hQ)
        · exact Or.inr ⟨y, hy, hQ⟩

theorem mem_if_insert (w h : Int) (acc : Finset (Int × Int)) (bp : Coord)
    (q : Int × Int) :
    (q ∈ if 0 ≤ bp.x ∧ bp.x < w ∧ 0 ≤ bp.y ∧ bp.y < h then
        insert (bp.x, bp.y) acc else acc) ↔
      q ∈ acc ∨ ((0 ≤ bp.x ∧ bp.x < w ∧ 0 ≤ bp.y ∧ bp.y < h) ∧ (bp.x, bp.y) = q) := by
  split
  · rename_i hc
    simp only [Finset.mem_insert]
    constructor
    · rintro (rfl | hq)
      · exact Or.inr ⟨hc, rfl⟩
      · exact Or.inl hq
    · rintro (hq | ⟨-, rfl⟩)
      · exact Or.inr hq
      · exact Or.inl rfl
  · rename_i hc
    constructor
    · exact Or.inl
    · rintro (hq | ⟨hb, rfl⟩)
      · exact hq
      · exact absurd hb hc

theorem mem_body_foldl (w h : Int) (body : List Coord)
    (acc : Finset (Int × Int)) (p : Int × Int) :
    p ∈ body.foldl
        (fun acc bp =>
          if 0 ≤ bp.x ∧ bp.x < w ∧ 0 ≤ bp.y ∧ bp.y < h then
            insert (bp.x, bp.y) acc
          else acc)
        acc ↔
      p ∈ acc ∨ ∃ bp ∈ body,
        (0 ≤ bp.x ∧ bp.x < w ∧ 0 ≤ bp.y ∧ bp.y < h) ∧ (bp.x, bp.y) = p :=
  mem_foldl_union
    (fun (acc : Finset (Int × Int)) (bp : Coord) =>
      if 0 ≤ bp.x ∧ bp.x < w ∧ 0 ≤ bp.y ∧ bp.y < h then
        insert (bp.x, bp.y) acc else acc)
    (fun (bp : Coord) (q : Int × Int) =>
      (0 ≤ bp.x ∧ bp.x < w ∧ 0 ≤ bp.y ∧ bp.y < h) ∧ (bp.x, bp.y) = q)
    (fun acc bp q => mem_if_insert w h acc bp q) body acc p

theorem mem_snakes_foldl (w h : Int) (snakes : List Battlesnake)
    (acc : Finset (Int × Int)) (p : Int × Int) :
    p ∈ snakes.foldl
        (fun acc snake =>
          snake.body.foldl
            (fun acc bp =>
              if 0 ≤ bp.x ∧ bp.x < w ∧ 0 ≤ bp.y ∧ bp.y < h then
                insert (bp.x, bp.y) acc
              else acc)
            acc)
        acc ↔
      p ∈ acc ∨ ∃ s ∈ snakes, ∃ bp ∈ s.body,
        (0 ≤ bp.x ∧ bp.x < w ∧ 0 ≤ bp.y ∧ bp.y < h) ∧ (bp.x, bp.y) = p :=
  mem_foldl_union
    (fun (acc : Finset (Int × Int)) (snake : Battlesnake) =>
      snake.body.foldl
        (fun acc bp =>
          if 0 ≤ bp.x ∧ bp.x < w ∧ 0 ≤ bp.y ∧ bp.y < h then
            insert (bp.x, bp.y) acc else acc)
        acc)
    (fun (snake : Battlesnake) (q : Int × Int) =>
      ∃ bp ∈ snake.body,
        (0 ≤ bp.x ∧ bp.x < w ∧ 0 ≤ bp.y ∧ bp.y < h) ∧ (bp.x, bp.y) = q)
    (fun acc snake q => mem_body_foldl w h snake.body acc q) snakes acc p

theorem mem_hazards_foldl (w h : Int) (hazards : List Coord)
    (acc : Finset (Int × Int)) (p : Int × Int) :
    p ∈ hazards.foldl
        (fun acc hz =>
          if 0 ≤ hz.x ∧ hz.x < w ∧ 0 ≤ hz.y ∧ hz.y < h then
            insert (hz.x, hz.y) acc
          else acc)
        acc ↔
      p ∈ acc ∨ ∃ hz ∈ hazards,
        (0 ≤ hz.x ∧ hz.x < w ∧ 0 ≤ hz.y ∧ hz.y < h) ∧ (hz.x, hz.y) = p :=
  mem_body_foldl w h hazards acc p

/-- Claim C4 (corrected): the occupancy grid built from a snapshot marks as
blocked exactly the in-bounds hazard cells and the in-bounds body segments
of every agent INCLUDING the last element of each body sequence - the
source excludes no tail - and leaves every other in-bounds cell free. -/
theorem C4_new_blockedCells_iff (gs : GameRequest) (p : Int × Int) :
    p ∈ (FloodFillChecker.new gs).blockedCells ↔
      ((0 ≤ p.1 ∧ p.1 < gs.board.width ∧ 0 ≤ p.2 ∧ p.2 < gs.board.height) ∧
        ((∃ hz ∈ gs.board.hazards, (hz.x, hz.y) = p) ∨
         ∃ s ∈ gs.board.snakes, ∃ bp ∈ s.body, (bp.x, bp.y) = p)) := by
  show p ∈ gs.board.hazards.foldl _ (gs.board.snakes.foldl _ ∅) ↔ _
  rw [mem_hazards_foldl gs.board.width gs.board.height gs.board.hazards _ p,
    mem_snakes_foldl gs.board.width gs.board.height gs.board.snakes ∅ p]
  simp only [Finset.not_mem_empty, false_or]
  constructor
  · rintro (⟨s, hs, bp, hbp, hb, rfl⟩ | ⟨hz, hhz, hb, rfl⟩)
    · exact ⟨hb, Or.inr ⟨s, hs, bp, hbp, rfl⟩⟩
    · exact ⟨hb, Or.inl ⟨hz, hhz, rfl⟩⟩
  · rintro ⟨hb, ⟨hz, hhz, rfl⟩ | ⟨s, hs, bp, hbp, rfl⟩⟩
    · exact Or.inr ⟨hz, hhz, hb, rfl⟩
    · exact Or.inl ⟨s, hs, bp, hbp, hb, rfl⟩

/-- Counterexample to claim C4 as stated: on cexTail the cell (1,0) is
only the LAST element (the tail) of the single snake's body and is no
hazard, yet the occupancy grid marks it blocked - the claim says the tail
is passable. -/
theorem C4_counterexample :
    ((1 : Int), (0 : Int)) ∈ (FloodFillChecker.new cexTail).blockedCells ∧
    (∀ s ∈ cexTail.board.snakes, ∀ bp ∈ s.body.dropLast,
      ¬(bp.x = 1 ∧ bp.y = 0)) ∧
    cexTail.board.hazards = [] := by decide

/-! ## Flood-fill analysis -/

theorem mem_boundsFinset_iff (c : FloodFillChecker) (p : Int × Int) :
    p ∈ boundsFinset c ↔ c.inBoundsPair p := by
  simp [boundsFinset, Finset.mem_product, Finset.mem_Ico,
    FloodFillChecker.inBoundsPair, and_assoc]

theorem card_boundsFinset (c : FloodFillChecker) :
    (boundsFinset c).card = c.width.toNat * c.height.toNat := by
  simp [boundsFinset, Finset.card_product, Int.card_Ico]

theorem phi_init (c : FloodFillChecker) (start : Coord) :
    phi c ∅ [start] = floodFuel c := by
  simp [phi, floodFuel, card_boundsFinset]

theorem mem_stepNbrs {c : FloodFillChecker} {coord : Coord}
    {visited : Finset (Int × Int)} {n : Coord}
    (hn : n ∈ stepNbrs c coord visited) :
    FreeCell c (n.x, n.y) ∧ (n.x, n.y) ∉ visited ∧
      Adj (coord.x, coord.y) (n.x, n.y) := by
  obtain ⟨d, hd, heq⟩ := List.mem_filterMap.1 hn
  by_cases hc : 0 ≤ coord.x + d.1 ∧ coord.x + d.1 < c.width ∧
      0 ≤ coord.y + d.2 ∧ coord.y + d.2 < c.height ∧
      (coord.x + d.1, coord.y + d.2) ∉ c.blockedCells ∧
      (coord.x + d.1, coord.y + d.2) ∉ visited
  · rw [if_pos hc] at heq
    cases heq
    obtain ⟨h1, h2, h3, h4, h5, h6⟩ := hc
    exact ⟨⟨⟨h1, h2, h3, h4⟩, h5⟩, h6, ⟨d, hd, rfl⟩⟩
  · rw [if_neg hc] at heq
    cases heq

theorem stepNbrs_complete {c : FloodFillChecker} {coord : Coord}
    {visited : Finset (Int × Int)} {q : Int × Int}
    (hadj : Adj (coord.x, coord.y) q) (hfree : FreeCell c q)
    (hnv : q ∉ visited) : ∃ n ∈ stepNbrs c coord visited, (n.x, n.y) = q := by
  obtain ⟨d, hd, rfl⟩ := hadj
  obtain ⟨⟨h1, h2, h3, h4⟩, h5⟩ := hfree
  refine ⟨Coord.mk (coord.x + d.1) (coord.y + d.2), ?_, rfl⟩
  refine List.mem_filterMap.2 ⟨d, hd, ?_⟩
  rw [if_pos ⟨h1, h2, h3, h4, h5, hnv⟩]

theorem stepNbrs_length_le (c : FloodFillChecker) (coord : Coord)
    (visited : Finset (Int × Int)) : (stepNbrs c coord visited).length ≤ 4 :=
  le_trans (List.length_filterMap_le _ _) (by simp [floodDirections])

theorem phi_insert_le {c : FloodFillChecker} {visited : Finset (Int × Int)}
    {coord : Coord} (rest : List Coord)
    (hfree : FreeCell c (coord.x, coord.y))
    (hnv : (coord.x, coord.y) ∉ visited) :
    phi c (insert (coord.x, coord.y) visited)
        (rest ++ stepNbrs c coord (insert (coord.x, coord.y) visited)) + 2 ≤
      phi c visited (coord :: rest) := by
  have hmem : (coord.x, coord.y) ∈ boundsFinset c \ visited :=
    Finset.mem_sdiff.2 ⟨(mem_boundsFinset_iff c _).2 hfree.1, hnv⟩
  have hcard : (boundsFinset c \ insert (coord.x, coord.y) visited).card =
      (boundsFinset c \ visited).card - 1 := by
    rw [Finset.sdiff_insert, Finset.card_erase_of_mem hmem]
  have hpos : 1 ≤ (boundsFinset c \ visited).card := Finset.card_pos.2 ⟨_, hmem⟩
  have hlen := stepNbrs_length_le c coord (insert (coord.x, coord.y) visited)
  simp only [phi, List.length_append, List.length_cons, hcard]
  omega

theorem floodLoop_mono (c : FloodFillChecker) :
    ∀ (fuel : Nat) (visited : Finset (Int × Int)) (queue : List Coord),
      visited ⊆ floodLoop c fuel visited queue := by
  intro fuel
  induction fuel with
  | zero => intro visited queue; exact subset_rfl
  | succ n ih =>
    intro visited queue
    cases queue with
    | nil => exact subset_rfl
    | cons coord rest =>
      simp only [floodLoop]
      split
      · exact ih visited rest
      · exact subset_trans (Finset.subset_insert _ _) (ih _ _)

theorem floodLoop_free (c : FloodFillChecker) :
    ∀ (fuel : Nat) (visited : Finset (Int × Int)) (queue : List Coord),
      (∀ q ∈ queue, FreeCell c (q.x, q.y)) → (∀ p ∈ visited, FreeCell c p) →
      ∀ p ∈ floodLoop c fuel visited queue, FreeCell c p := by
  intro fuel
  induction fuel with
  | zero => intro visited queue _ hv; exact hv
  | succ n ih =>
    intro visited queue hq hv
    cases queue with
    | nil => exact hv
    | cons coord rest =>
      simp only [floodLoop]
      split
      · exact ih visited rest (fun q hq' => hq q (List.mem_cons_of_mem _ hq')) hv
      · refine ih _ _ ?_ ?_
        · intro q hq'
          rcases List.mem_append.1 hq' with hq' | hq'
          · exact hq q (List.mem_cons_of_mem _ hq')
          · exact (mem_stepNbrs hq').1
        · intro p hp
          rcases Finset.mem_insert.1 hp with rfl | hp
          · exact hq coord (List.mem_cons_self _ _)
          · exact hv p hp

theorem floodLoop_drain (c : FloodFillChecker) :
    ∀ (fuel : Nat) (visited : Finset (Int × Int)) (queue : List Coord),
      phi c visited queue ≤ fuel → (∀ q ∈ queue, FreeCell c (q.x, q.y)) →
      ∀ q ∈ queue, (q.x, q.y) ∈ floodLoop c fuel visited queue := by
  intro fuel
  induction fuel with
  | zero =>
    intro visited queue hphi _ q hq
    have : queue.length = 0 := by
      have := hphi
      simp only [phi] at this
      omega
    rw [List.length_eq_zero.1 this] at hq
    cases hq
  | succ n ih =>
    intro visited queue hphi hfree q hq
    cases queue with
    | nil => cases hq
    | cons coord rest =>
      simp only [floodLoop]
      split
      · rename_i hvis
        rcases List.mem_cons.1 hq with rfl | hq
        · exact floodLoop_mono c n visited rest hvis
        · refine ih visited rest ?_
            (fun r hr => hfree r (List.mem_cons_of_mem _ hr)) q hq
          simp only [phi, List.length_cons] at hphi ⊢
          omega
      · rename_i hvis
        have hfc : FreeCell c (coord.x, coord.y) :=
          hfree coord (List.mem_cons_self _ _)
        have hphi' := phi_insert_le rest hfc hvis
        rcases List.mem_cons.1 hq with rfl | hq
        · exact floodLoop_mono c n _ _ (Finset.mem_insert_self _ _)
        · refine ih _ _ (by omega) ?_ q (List.mem_append.2 (Or.inl hq))
          intro r hr
          rcases List.mem_append.1 hr with hr | hr
          · exact hfree r (List.mem_cons_of_mem _ hr)
          · exact (mem_stepNbrs hr).1

theorem floodLoop_closed (c : FloodFillChecker) :
    ∀ (fuel : Nat) (visited : Finset (Int × Int)) (queue : List Coord),
      phi c visited queue ≤ fuel → (∀ q ∈ queue, FreeCell c (q.x, q.y)) →
      (∀ p ∈ visited, ∀ q, Adj p q → FreeCell c q →
        q ∈ visited ∨ ∃ n ∈ queue, (n.x, n.y) = q) →
      ∀ p ∈ floodLoop c fuel visited queue, ∀ q, Adj p q → FreeCell c q →
        q ∈ floodLoop c fuel visited queue := by
  intro fuel
  induction fuel with
  | zero =>
    intro visited queue hphi _ hcl p hp q hadj hfq
    have hq0 : queue.length = 0 := by
      simp only [phi] at hphi
      omega
    rw [List.length_eq_zero.1 hq0] at hcl
    rcases hcl p hp q hadj hfq with h | ⟨n, hn, -⟩
    · exact h
    · cases hn
  | succ n ih =>
    intro visited queue hphi hfree hcl
    cases queue with
    | nil =>
      intro p hp q hadj hfq
      rcases hcl p hp q hadj hfq with h | ⟨m, hm, -⟩
      · exact h
      · cases hm
    | cons coord rest =>
      simp only [floodLoop]
      split
      · rename_i hvis
        refine ih visited rest ?_
          (fun r hr => hfree r (List.mem_cons_of_mem _ hr)) ?_
        · simp only [phi, List.length_cons] at hphi ⊢
          omega
        · intro p hp q hadj hfq
          rcases hcl p hp q hadj hfq with h | ⟨m, hm, hmq⟩
          · exact Or.inl h
          · rcases List.mem_cons.1 hm with rfl | hm
            · exact Or.inl (hmq ▸ hvis)
            · exact Or.inr ⟨m, hm, hmq⟩
      · rename_i hvis
        have hfc : FreeCell c (coord.x, coord.y) :=
          hfree coord (List.mem_cons_self _ _)
        have hphi' := phi_insert_le rest hfc hvis
        refine ih _ _ (by omega) ?_ ?_
        · intro r hr
          rcases List.mem_append.1 hr with hr | hr
          · exact hfree r (List.mem_cons_of_mem _ hr)
          · exact (mem_stepNbrs hr).1
        · intro p hp q hadj hfq
          rcases Finset.mem_insert.1 hp with rfl | hp
          · by_cases hqv : q ∈ insert (coord.x, coord.y) visited
            · exact Or.inl hqv
            · obtain ⟨m, hm, hmq⟩ := stepNbrs_complete hadj hfq hqv
              exact Or.inr ⟨m, List.mem_append.2 (Or.inr hm), hmq⟩
          · rcases hcl p hp q hadj hfq with h | ⟨m, hm, hmq⟩
            · exact Or.inl (Finset.mem_insert_of_mem h)
            · rcases List.mem_cons.1 hm with rfl | hm
              · exact Or.inl (hmq ▸ Finset.mem_insert_self _ _)
              · exact Or.inr ⟨m, List.mem_append.2 (Or.inl hm), hmq⟩

theorem floodLoop_sound (c : FloodFillChecker) (S : Set (Int × Int))
    (hS : ∀ p q, p ∈ S → FloodStep c p q → q ∈ S) :
    ∀ (fuel : Nat) (visited : Finset (Int × Int)) (queue : List Coord),
      (∀ q ∈ queue, FreeCell c (q.x, q.y)) →
      (∀ p ∈ visited, p ∈ S) → (∀ q ∈ queue, (q.x, q.y) ∈ S) →
      ∀ p ∈ floodLoop c fuel visited queue, p ∈ S := by
  intro fuel
  induction fuel with
  | zero => intro visited queue _ hv _; exact hv
  | succ n ih =>
    intro visited queue hfree hv hqS
    cases queue with
    | nil => exact hv
    | cons coord rest =>
      simp only [floodLoop]
      split
      · exact ih visited rest (fun r hr => hfree r (List.mem_cons_of_mem _ hr))
          hv (fun r hr => hqS r (List.mem_cons_of_mem _ hr))
      · have hfc : FreeCell c (coord.x, coord.y) :=
          hfree coord (List.mem_cons_self _ _)
        have hcS : (coord.x, coord.y) ∈ S := hqS coord (List.mem_cons_self _ _)
        refine ih _ _ ?_ ?_ ?_
        · intro r hr
          rcases List.mem_append.1 hr with hr | hr
          · exact hfree r (List.mem_cons_of_mem _ hr)
          · exact (mem_stepNbrs hr).1
        · intro p hp
          rcases Finset.mem_insert.1 hp with rfl | hp
          · exact hcS
          · exact hv p hp
        · intro r hr
          rcases List.mem_append.1 hr with hr | hr
          · exact hqS r (List.mem_cons_of_mem _ hr)
          · obtain ⟨hrf, -, hradj⟩ := mem_stepNbrs hr
            exact hS _ _ hcS ⟨hfc, hrf, hradj⟩

theorem floodLoop_succ_eq (c : FloodFillChecker) :
    ∀ (fuel : Nat) (visited : Finset (Int × Int)) (queue : List Coord),
      phi c visited queue ≤ fuel → (∀ q ∈ queue, FreeCell c (q.x, q.y)) →
      floodLoop c (fuel + 1) visited queue = floodLoop c fuel visited queue := by
  intro fuel
  induction fuel with
  | zero =>
    intro visited queue hphi _
    have hq0 : queue.length = 0 := by
      simp only [phi] at hphi
      omega
    rw [List.length_eq_zero.1 hq0]
    rfl
  | succ n ih =>
    intro visited queue hphi hfree
    cases queue with
    | nil => rfl
    | cons coord rest =>
      show floodLoop c (n + 1 + 1) visited (coord :: rest) =
        floodLoop c (n + 1) visited (coord :: rest)
      simp only [floodLoop]
      split
      · refine ih visited rest ?_
          (fun r hr => hfree r (List.mem_cons_of_mem _ hr))
        simp only [phi, List.length_cons] at hphi ⊢
        omega
      · rename_i hvis
        have hfc : FreeCell c (coord.x, coord.y) :=
          hfree coord (List.mem_cons_self _ _)
        have hphi' := phi_insert_le rest hfc hvis
        refine ih _ _ (by omega) ?_
        intro r hr
        rcases List.mem_append.1 hr with hr | hr
        · exact hfree r (List.mem_cons_of_mem _ hr)
        · exact (mem_stepNbrs hr).1

theorem flood_fill_guard_iff (c : FloodFillChecker) (start : Coord) :
    (start.x < 0 ∨ start.x ≥ c.width ∨ start.y < 0 ∨ start.y ≥ c.height ∨
      (start.x, start.y) ∈ c.blockedCells) ↔ ¬FreeCell c (start.x, start.y) := by
  unfold FreeCell FloodFillChecker.inBoundsPair
  dsimp only
  constructor
  · rintro (h | h | h | h | h) ⟨⟨h1, h2, h3, h4⟩, hnb⟩
    · omega
    · omega
    · omega
    · omega
    · exact hnb h
  · intro h
    by_cases hm : (start.x, start.y) ∈ c.blockedCells
    · exact Or.inr (Or.inr (Or.inr (Or.inr hm)))
    · have hna : ¬(0 ≤ start.x ∧ start.x < c.width ∧ 0 ≤ start.y ∧
          start.y < c.height) := fun hc => h ⟨hc, hm⟩
      have : start.x < 0 ∨ start.x ≥ c.width ∨ start.y < 0 ∨
          start.y ≥ c.height := by omega
      tauto

theorem flood_fill_eq_ncard (c : FloodFillChecker) (start : Coord) :
    c.flood_fill start = (reachSet c start).ncard := by
  unfold FloodFillChecker.flood_fill
  split
  · rename_i hg
    have hnf : ¬FreeCell c (start.x, start.y) :=
      (flood_fill_guard_iff c start).1 hg
    have hempty : reachSet c start = ∅ := by
      ext p
      simp only [reachSet, Set.mem_setOf_eq, Set.mem_empty_iff_false, iff_false]
      rintro ⟨hfree, hrtg⟩
      rcases Relation.ReflTransGen.cases_head hrtg with rfl | ⟨b, hstep, -⟩
      · exact hnf hfree
      · exact hnf hstep.1
    rw [hempty, Set.ncard_empty]
  · rename_i hg
    have hf : FreeCell c (start.x, start.y) := by
      by_contra h
      exact hg ((flood_fill_guard_iff c start).2 h)
    have hqfree : ∀ q ∈ [start], FreeCell c (q.x, q.y) := by
      intro q hq
      rcases List.mem_singleton.1 hq with rfl
      exact hf
    have hphi : phi c ∅ [start] ≤ floodFuel c := le_of_eq (phi_init c start)
    have hsub1 : ∀ p ∈ floodLoop c (floodFuel c) ∅ [start],
        p ∈ reachSet c start := by
      refine floodLoop_sound c (reachSet c start) ?_ (floodFuel c) ∅ [start]
        hqfree ?_ ?_
      · rintro p q ⟨hpf, hrtg⟩ hstep
        exact ⟨hstep.2.1, hrtg.tail hstep⟩
      · intro p hp
        exact absurd hp (Finset.not_mem_empty p)
      · intro q hq
        rcases List.mem_singleton.1 hq with rfl
        exact ⟨hf, Relation.ReflTransGen.refl⟩
    have hsub2 : ∀ p, p ∈ reachSet c start →
        p ∈ floodLoop c (floodFuel c) ∅ [start] := by
      rintro p ⟨-, hrtg⟩
      induction hrtg with
      | refl =>
        exact floodLoop_drain c (floodFuel c) ∅ [start] hphi hqfree start
          (List.mem_singleton_self start)
      | tail hab hbc ih =>
        refine floodLoop_closed c (floodFuel c) ∅ [start] hphi hqfree ?_ _ ih _
          hbc.2.2 hbc.2.1
        intro p hp
        exact absurd hp (Finset.not_mem_empty p)
    have hset : (↑(floodLoop c (floodFuel c) ∅ [start]) : Set (Int × Int)) =
        reachSet c start := by
      ext p
      exact ⟨fun hp => hsub1 p (Finset.mem_coe.1 hp),
        fun hp => Finset.mem_coe.2 (hsub2 p hp)⟩
    rw [← hset, Set.ncard_coe_Finset]

theorem grid_connected (c : FloodFillChecker)
    (hb : c.blockedCells = ∅) :
    ∀ a b : Int × Int, c.inBoundsPair a → c.inBoundsPair b →
      Relation.ReflTransGen (FloodStep c) a b := by
  have hfree : ∀ p : Int × Int, c.inBoundsPair p → FreeCell c p := by
    intro p hp
    exact ⟨hp, by simp [hb]⟩
  have hstep : ∀ p q : Int × Int, c.inBoundsPair p → c.inBoundsPair q →
      Adj p q → FloodStep c p q :=
    fun p q hp hq hadj => ⟨hfree p hp, hfree q hq, hadj⟩
  have hinb : ∀ x y : Int, 0 ≤ x → x < c.width → 0 ≤ y → y < c.height →
      c.inBoundsPair (x, y) := by
    intro x y h1 h2 h3 h4
    exact ⟨h1, h2, h3, h4⟩
  have horiz : ∀ (n : Nat) (x1 x2 y : Int), (x2 - x1).natAbs = n →
      c.inBoundsPair (x1, y) → c.inBoundsPair (x2, y) →
      Relation.ReflTransGen (FloodStep c) (x1, y) (x2, y) := by
    intro n
    induction n with
    | zero =>
      intro x1 x2 y habs _ _
      have : x1 = x2 := by omega
      rw [this]
    | succ k ih =>
      intro x1 x2 y habs h1 h2
      obtain ⟨ha1, ha2, ha3, ha4⟩ := h1
      obtain ⟨hb1, hb2, hb3, hb4⟩ := h2
      by_cases hlt : x1 < x2
      · have hmid : c.inBoundsPair (x2 - 1, y) := hinb _ _ (by omega) (by omega) ha3 ha4
        refine (ih x1 (x2 - 1) y (by omega) ⟨ha1, ha2, ha3, ha4⟩ hmid).tail
          (hstep _ _ hmid ⟨hb1, hb2, hb3, hb4⟩ ⟨(1, 0), by simp [floodDirections], ?_⟩)
        simp
      · have hmid : c.inBoundsPair (x2 + 1, y) := hinb _ _ (by omega) (by omega) ha3 ha4
        refine (ih x1 (x2 + 1) y (by omega) ⟨ha1, ha2, ha3, ha4⟩ hmid).tail
          (hstep _ _ hmid ⟨hb1, hb2, hb3, hb4⟩ ⟨(-1, 0), by simp [floodDirections], ?_⟩)
        simp
  have hvert : ∀ (n : Nat) (x y1 y2 : Int), (y2 - y1).natAbs = n →
      c.inBoundsPair (x, y1) → c.inBoundsPair (x, y2) →
      Relation.ReflTransGen (FloodStep c) (x, y1) (x, y2) := by
    intro n
    induction n with
    | zero =>
      intro x y1 y2 habs _ _
      have : y1 = y2 := by omega
      rw [this]
    | succ k ih =>
      intro x y1 y2 habs h1 h2
      obtain ⟨ha1, ha2, ha3, ha4⟩ := h1
      obtain ⟨hb1, hb2, hb3, hb4⟩ := h2
      by_cases hlt : y1 < y2
      · have hmid : c.inBoundsPair (x, y2 - 1) := hinb _ _ ha1 ha2 (by omega) (by omega)
        refine (ih x y1 (y2 - 1) (by omega) ⟨ha1, ha2, ha3, ha4⟩ hmid).tail
          (hstep _ _ hmid ⟨hb1, hb2, hb3, hb4⟩ ⟨(0, 1), by simp [floodDirections], ?_⟩)
        simp
      · have hmid : c.inBoundsPair (x, y2 + 1) := hinb _ _ ha1 ha2 (by omega) (by omega)
        refine (ih x y1 (y2 + 1) (by omega) ⟨ha1, ha2, ha3, ha4⟩ hmid).tail
          (hstep _ _ hmid ⟨hb1, hb2, hb3, hb4⟩ ⟨(0, -1), by simp [floodDirections], ?_⟩)
        simp
  intro a b ha hb'
  have hmidb : c.inBoundsPair (b.1, a.2) := ⟨hb'.1, hb'.2.1, ha.2.2.1, ha.2.2.2⟩
  have t1 : Relation.ReflTransGen (FloodStep c) (a.1, a.2) (b.1, a.2) :=
    horiz _ a.1 b.1 a.2 rfl ⟨ha.1, ha.2.1, ha.2.2.1, ha.2.2.2⟩ hmidb
  have t2 : Relation.ReflTransGen (FloodStep c) (b.1, a.2) (b.1, b.2) :=
    hvert _ b.1 a.2 b.2 rfl hmidb ⟨hb'.1, hb'.2.1, hb'.2.2.1, hb'.2.2.2⟩
  exact Relation.ReflTransGen.trans t1 t2

/-- Claim C7: flood_fill returns 0 from any start cell that is out of
bounds or blocked in the occupancy grid. -/
theorem C7_flood_fill_blocked_zero (c : FloodFillChecker) (start : Coord)
    (h : ¬c.inBoundsPair (start.x, start.y) ∨
      (start.x, start.y) ∈ c.blockedCells) :
    c.flood_fill start = 0 := by
  unfold FloodFillChecker.flood_fill
  rw [if_pos]
  rcases h with h | h
  · unfold FloodFillChecker.inBoundsPair at h
    dsimp only at h
    have : start.x < 0 ∨ start.x ≥ c.width ∨ start.y < 0 ∨
        start.y ≥ c.height := by omega
    tauto
  · tauto

/-- Witness for C7 at a concrete input: the cell (5,0) lies outside the
3 x 3 board of cexTail, and flood_fill from it returns 0. -/
theorem C7_witness :
    (¬(FloodFillChecker.new cexTail).inBoundsPair ((5 : Int), (0 : Int)) ∨
      ((5 : Int), (0 : Int)) ∈ (FloodFillChecker.new cexTail).blockedCells) ∧
    (FloodFillChecker.new cexTail).flood_fill (Coord.mk 5 0) = 0 :=
  ⟨by decide, C7_flood_fill_blocked_zero (FloodFillChecker.new cexTail)
    (Coord.mk 5 0) (by decide)⟩

/-- Claim C8: flood_fill returns the number of distinct free cells
reachable from the start by orthogonal steps through free cells, the start
included - a traversal-order-independent characterization - and on a grid
with no blocked cells it returns exactly width x height from any in-bounds
start. -/
theorem C8_flood_fill_reachable_count :
    (∀ (c : FloodFillChecker) (start : Coord),
      c.flood_fill start = (reachSet c start).ncard) ∧
    (∀ (c : FloodFillChecker) (start : Coord),
      c.blockedCells = ∅ → c.inBoundsPair (start.x, start.y) →
      c.flood_fill start = c.width.toNat * c.height.toNat) := by
  refine ⟨flood_fill_eq_ncard, ?_⟩
  intro c start hb hin
  rw [flood_fill_eq_ncard]
  have hset : reachSet c start = ↑(boundsFinset c) := by
    ext p
    simp only [reachSet, Set.mem_setOf_eq, Finset.mem_coe]
    constructor
    · rintro ⟨hfree, -⟩
      exact (mem_boundsFinset_iff c p).2 hfree.1
    · intro hp
      have hpin := (mem_boundsFinset_iff c p).1 hp
      exact ⟨⟨hpin, by simp [hb]⟩, grid_connected c hb _ _ hin hpin⟩
  rw [hset, Set.ncard_coe_Finset, card_boundsFinset]

/-- Witness for C8 at a concrete input: the open 2 x 2 checker with start
(0,0) satisfies the hypotheses, and flood_fill returns 2 x 2 = 4. -/
theorem C8_witness :
    cgFree.blockedCells = ∅ ∧ cgFree.inBoundsPair ((0 : Int), (0 : Int)) ∧
    cgFree.flood_fill (Coord.mk 0 0) = cgFree.width.toNat * cgFree.height.toNat :=
  ⟨rfl, by decide, C8_flood_fill_reachable_count.2 cgFree (Coord.mk 0 0) rfl
    (by decide)⟩

/-- Claim C9: the flood-fill traversal loop terminates on every finite
grid: from the potential phi on - and flood_fill runs the loop at fuel
floodFuel, which phi_init shows is enough - adding any amount of extra
fuel leaves the visited set unchanged, so the loop has drained its queue. -/
theorem C9_floodLoop_terminates (c : FloodFillChecker) (fuel extra : Nat)
    (visited : Finset (Int × Int)) (queue : List Coord)
    (hphi : phi c visited queue ≤ fuel)
    (hfree : ∀ q ∈ queue, FreeCell c (q.x, q.y)) :
    floodLoop c (fuel + extra) visited queue =
      floodLoop c fuel visited queue := by
  induction extra with
  | zero => rfl
  | succ k ih =>
    have hsucc : fuel + (k + 1) = (fuel + k) + 1 := by omega
    rw [hsucc, floodLoop_succ_eq c (fuel + k) visited queue (by omega) hfree, ih]

/-- Witness for C9 at a concrete input: on the open 2 x 2 checker, running
the loop with 7 units of extra fuel returns the same visited set. -/
theorem C9_witness :
    phi cgFree ∅ [Coord.mk 0 0] ≤ floodFuel cgFree ∧
    (∀ q ∈ [Coord.mk 0 0], FreeCell cgFree (q.x, q.y)) ∧
    floodLoop cgFree (floodFuel cgFree + 7) ∅ [Coord.mk 0 0] =
      floodLoop cgFree (floodFuel cgFree) ∅ [Coord.mk 0 0] :=
  ⟨by decide, by decide, C9_floodLoop_terminates cgFree (floodFuel cgFree) 7 ∅
    [Coord.mk 0 0] (by decide) (by decide)⟩

/-! ## The duel payoff -/

theorem foldl_add_eq_sum {α : Type} (g : α → Rat) :
    ∀ (l : List α) (init : Rat),
      l.foldl (fun acc x => acc + g x) init = init + (l.map g).sum := by
  intro l
  induction l with
  | nil => simp
  | cons x xs ih =>
    intro init
    simp only [List.foldl_cons, List.map_cons, List.sum_cons]
    rw [ih]
    ring

theorem sum_map_ite {α : Type} (P : α → Prop) [DecidablePred P] (k : Rat) :
    ∀ l : List α, (l.map fun x => if P x then k else 0).sum =
      k * ((l.filter fun x => decide (P x)).length : Rat) := by
  intro l
  induction l with
  | nil => simp
  | cons x xs ih =>
    simp only [List.map_cons, List.sum_cons, List.filter_cons, ih]
    by_cases h : P x
    · simp only [h, if_true, decide_eq_true_eq, List.length_cons]
      push_cast
      ring
    · simp [h]

theorem sum_map_add {α : Type} (g₁ g₂ : α → Rat) :
    ∀ l : List α, (l.map fun x => g₁ x + g₂ x).sum =
      (l.map g₁).sum + (l.map g₂).sum := by
  intro l
  induction l with
  | nil => simp
  | cons x xs ih =>
    simp only [List.map_cons, List.sum_cons, ih]
    ring

theorem payoff_my_fold (my_pos : Coord) (l : List Coord) (init : Rat) :
    l.foldl (fun acc bp =>
        if my_pos.x = bp.x ∧ my_pos.y = bp.y then acc - 1000 else acc) init =
      init + -1000 * ((l.filter fun bp =>
        decide (my_pos.x = bp.x ∧ my_pos.y = bp.y)).length : Rat) := by
  have hstep : (fun (acc : Rat) (bp : Coord) =>
      if my_pos.x = bp.x ∧ my_pos.y = bp.y then acc - 1000 else acc) =
      fun (acc : Rat) (bp : Coord) =>
        acc + (if my_pos.x = bp.x ∧ my_pos.y = bp.y then (-1000 : Rat) else 0) := by
    funext acc bp
    split <;> ring
  rw [hstep, foldl_add_eq_sum, sum_map_ite]

theorem payoff_opp_fold (my_pos opp_pos : Coord) (l : List Coord)
    (init : Rat) :
    l.foldl (fun acc bp =>
        if opp_pos.x = bp.x ∧ opp_pos.y = bp.y then
          (if my_pos.x = bp.x ∧ my_pos.y = bp.y then acc - 500 else acc) + 500
        else
          (if my_pos.x = bp.x ∧ my_pos.y = bp.y then acc - 500 else acc)) init =
      init +
        (-500 * ((l.filter fun bp =>
            decide (my_pos.x = bp.x ∧ my_pos.y = bp.y)).length : Rat) +
         500 * ((l.filter fun bp =>
            decide (opp_pos.x = bp.x ∧ opp_pos.y = bp.y)).length : Rat)) := by
  have hstep : (fun (acc : Rat) (bp : Coord) =>
      if opp_pos.x = bp.x ∧ opp_pos.y = bp.y then
        (if my_pos.x = bp.x ∧ my_pos.y = bp.y then acc - 500 else acc) + 500
      else
        (if my_pos.x = bp.x ∧ my_pos.y = bp.y then acc - 500 else acc)) =
      fun (acc : Rat) (bp : Coord) =>
        acc + ((if my_pos.x = bp.x ∧ my_pos.y = bp.y then (-500 : Rat) else 0) +
          (if opp_pos.x = bp.x ∧ opp_pos.y = bp.y then (500 : Rat) else 0)) := by
    funext acc bp
    split <;> split <;> ring
  rw [hstep, foldl_add_eq_sum, sum_map_add, sum_map_ite, sum_map_ite]

theorem payoff_food_fold (my_pos opp_pos : Coord) (l : List Coord)
    (init : Rat) :
    l.foldl (fun acc food =>
        if (my_pos.x - food.x).natAbs + (my_pos.y - food.y).natAbs <
            (opp_pos.x - food.x).natAbs + (opp_pos.y - food.y).natAbs then
          acc + 10 / ((((my_pos.x - food.x).natAbs +
            (my_pos.y - food.y).natAbs : Nat) : Rat) + 1)
        else
          acc - 5 / ((((opp_pos.x - food.x).natAbs +
            (opp_pos.y - food.y).natAbs : Nat) : Rat) + 1)) init =
      init + (l.map fun food =>
        if (my_pos.x - food.x).natAbs + (my_pos.y - food.y).natAbs <
            (opp_pos.x - food.x).natAbs + (opp_pos.y - food.y).natAbs then
          (10 : Rat) / ((((my_pos.x - food.x).natAbs +
            (my_pos.y - food.y).natAbs : Nat) : Rat) + 1)
        else
          -5 / ((((opp_pos.x - food.x).natAbs +
            (opp_pos.y - food.y).natAbs : Nat) : Rat) + 1)).sum := by
  have hstep : (fun (acc : Rat) (food : Coord) =>
      if (my_pos.x - food.x).natAbs + (my_pos.y - food.y).natAbs <
          (opp_pos.x - food.x).natAbs + (opp_pos.y - food.y).natAbs then
        acc + 10 / ((((my_pos.x - food.x).natAbs +
          (my_pos.y - food.y).natAbs : Nat) : Rat) + 1)
      else
        acc - 5 / ((((opp_pos.x - food.x).natAbs +
          (opp_pos.y - food.y).natAbs : Nat) : Rat) + 1)) =
      fun (acc : Rat) (food : Coord) =>
        acc + (if (my_pos.x - food.x).natAbs + (my_pos.y - food.y).natAbs <
            (opp_pos.x - food.x).natAbs + (opp_pos.y - food.y).natAbs then
          (10 : Rat) / ((((my_pos.x - food.x).natAbs +
            (my_pos.y - food.y).natAbs : Nat) : Rat) + 1)
        else
          -5 / ((((opp_pos.x - food.x).natAbs +
            (opp_pos.y - food.y).natAbs : Nat) : Rat) + 1)) := by
    funext acc food
    split <;> ring
  rw [hstep, foldl_add_eq_sum]

/-! ## The decision paths -/

theorem maxByKeyLast_four {α β : Type} [LinearOrder β] (key : α → β)
    (p1 p2 p3 p4 : α) :
    ∃ x, maxByKeyLast key [p1, p2, p3, p4] = some x ∧
      (x = p1 ∨ x = p2 ∨ x = p3 ∨ x = p4) := by
  obtain ⟨x, hx⟩ := maxByKeyLast_isSome key [p1, p2, p3, p4] (by simp)
  have hmem := lastArgmax_mem (maxByKeyLast_lastArgmax key _ x hx)
  refine ⟨x, hx, ?_⟩
  simpa using hmem

theorem get_move_nonduel (gs : GameRequest)
    (h2 : gs.board.snakes.length ≠ 2) :
    get_move gs = some (((maxByKeyLast Prod.snd
      ((FloodFillChecker.new gs).get_safe_moves gs.you.head)).map
        Prod.fst).getD "up") := by
  unfold get_move
  by_cases h3 : gs.board.snakes.length ≥ 3
  · rw [if_pos h3]
  · rw [if_neg h3, if_neg h2]

theorem safe_moves_eq (c : FloodFillChecker) (head : Coord) :
    c.get_safe_moves head =
      [("up", c.flood_fill (Coord.mk head.x (head.y + 1))),
       ("down", c.flood_fill (Coord.mk head.x (head.y - 1))),
       ("left", c.flood_fill (Coord.mk (head.x - 1) head.y)),
       ("right", c.flood_fill (Coord.mk (head.x + 1) head.y))] := rfl

theorem duel_path_analysis (gs : GameRequest) (hv : ValidSnapshot gs)
    (h2 : gs.board.snakes.length = 2) :
    ∃ strat x d, duel_strategy gs = some strat ∧
      maxByKeyLast Prod.snd strat.enum = some x ∧
      moveNames.get? x.1 = some d ∧
      get_move gs = some d ∧
      (d = "up" ∨ d = "down" ∨ d = "left" ∨ d = "right") := by
  obtain ⟨hw, hh, hcount, hybody, hbodies⟩ := hv
  rcases hfind : gs.board.snakes.find? (fun s => decide (s.id ≠ gs.you.id))
    with _ | opp
  · exfalso
    have hall := List.find?_eq_none.1 hfind
    have hlen : gs.board.snakes.countP (fun s => s.id == gs.you.id) =
        gs.board.snakes.length := by
      rw [List.countP_eq_length]
      intro s hs
      have hsid := hall s hs
      simp only [decide_eq_true_eq, not_not] at hsid
      simp [hsid]
    omega
  · have hmem := List.mem_of_find?_eq_some hfind
    have hoppbody := hbodies opp hmem
    have hne : ¬(gs.you.body.isEmpty = true ∨ opp.body.isEmpty = true) := by
      simp [List.isEmpty_iff, hybody, hoppbody]
    obtain ⟨m, hm⟩ : ∃ m, create_payoff_matrix gs gs.you opp = some m := by
      unfold create_payoff_matrix
      rw [if_neg hne]
      exact ⟨_, rfl⟩
    have hstr : duel_strategy gs = some (minimax_strategy m) := by
      unfold duel_strategy
      rw [hfind]
      simp [hm]
    obtain ⟨a, b, c', d', hstrat⟩ :
        ∃ a b c' d', minimax_strategy m = [a, b, c', d'] := by
      unfold minimax_strategy
      dsimp only
      split
      · exact ⟨_, _, _, _, rfl⟩
      · exact ⟨_, _, _, _, rfl⟩
    have henum : (minimax_strategy m).enum =
        [((0 : Nat), a), (1, b), (2, c'), (3, d')] := by
      rw [hstrat]
      simp [List.enum, List.enumFrom]
    obtain ⟨x, hx, hor⟩ :=
      maxByKeyLast_four Prod.snd ((0 : Nat), a) (1, b) (2, c') (3, d')
    obtain ⟨mv, hmv, hmvor⟩ : ∃ mv, moveNames.get? x.1 = some mv ∧
        (mv = "up" ∨ mv = "down" ∨ mv = "left" ∨ mv = "right") := by
      rcases hor with rfl | rfl | rfl | rfl
      · exact ⟨"up", rfl, Or.inl rfl⟩
      · exact ⟨"down", rfl, Or.inr (Or.inl rfl)⟩
      · exact ⟨"left", rfl, Or.inr (Or.inr (Or.inl rfl))⟩
      · exact ⟨"right", rfl, Or.inr (Or.inr (Or.inr rfl))⟩
    have hgm : get_move gs = solve_bilinear_duel gs := by
      unfold get_move
      rw [if_neg (by omega), if_pos h2]
    have hsolve : solve_bilinear_duel gs = some mv := by
      unfold solve_bilinear_duel
      rw [if_neg (fun hne' => hne' h2), hstr]
      simp [henum, hx]
      simpa using hmv
    refine ⟨minimax_strategy m, x, mv, hstr, ?_, hmv, hgm.trans hsolve, hmvor⟩
    rw [henum]
    exact hx

/-- Claim C6: on a structurally valid snapshot - positive dimensions, the
self identifier borne by exactly one listed snake, all bodies non-empty -
get_move totally returns one of up, down, left, right: the opponent
lookup, the body slicing and the arg-max indexing never hit a panic
branch (modelled as Option.none). -/
theorem C6_get_move_total (gs : GameRequest) (hv : ValidSnapshot gs) :
    ∃ d, get_move gs = some d ∧
      (d = "up" ∨ d = "down" ∨ d = "left" ∨ d = "right") := by
  by_cases h2 : gs.board.snakes.length = 2
  · obtain ⟨-, -, d, -, -, -, hgm, hor⟩ := duel_path_analysis gs hv h2
    exact ⟨d, hgm, hor⟩
  · rw [get_move_nonduel gs h2, safe_moves_eq]
    obtain ⟨x, hx, hor⟩ := maxByKeyLast_four Prod.snd
      ("up", (FloodFillChecker.new gs).flood_fill
        (Coord.mk gs.you.head.x (gs.you.head.y + 1)))
      ("down", (FloodFillChecker.new gs).flood_fill
        (Coord.mk gs.you.head.x (gs.you.head.y - 1)))
      ("left", (FloodFillChecker.new gs).flood_fill
        (Coord.mk (gs.you.head.x - 1) gs.you.head.y))
      ("right", (FloodFillChecker.new gs).flood_fill
        (Coord.mk (gs.you.head.x + 1) gs.you.head.y))
    rw [hx]
    refine ⟨x.1, rfl, ?_⟩
    rcases hor with rfl | rfl | rfl | rfl
    · exact Or.inl rfl
    · exact Or.inr (Or.inl rfl)
    · exact Or.inr (Or.inr (Or.inl rfl))
    · exact Or.inr (Or.inr (Or.inr rfl))

/-- Witness for C6 at a concrete input: the two-snake request cexDuel is
structurally valid and get_move returns one of the four directions. -/
theorem C6_witness :
    ValidSnapshot cexDuel ∧ ∃ d, get_move cexDuel = some d ∧
      (d = "up" ∨ d = "down" ∨ d = "left" ∨ d = "right") :=
  ⟨by decide, C6_get_move_total cexDuel (by decide)⟩

/-- Claim C10: get_safe_moves always returns exactly four candidates in
the fixed order up, down, left, right, so the unwrap_or_else("up")
fallback of the two non-duel paths of get_move is unreachable: the
returned direction is the first component of an element actually selected
by the maximum over the four flood-fill counts. -/
theorem C10_four_candidates :
    (∀ (c : FloodFillChecker) (head : Coord),
      (c.get_safe_moves head).map Prod.fst = ["up", "down", "left", "right"] ∧
        (c.get_safe_moves head).length = 4) ∧
    (∀ gs : GameRequest, gs.board.snakes.length ≠ 2 →
      ∃ p, maxByKeyLast Prod.snd
          ((FloodFillChecker.new gs).get_safe_moves gs.you.head) = some p ∧
        p ∈ (FloodFillChecker.new gs).get_safe_moves gs.you.head ∧
        get_move gs = some p.1) := by
  constructor
  · intro c head
    exact ⟨rfl, rfl⟩
  · intro gs h2
    obtain ⟨x, hx⟩ := maxByKeyLast_isSome Prod.snd
      ((FloodFillChecker.new gs).get_safe_moves gs.you.head)
      (by rw [safe_moves_eq]; simp)
    have hmem := lastArgmax_mem (maxByKeyLast_lastArgmax Prod.snd _ x hx)
    refine ⟨x, hx, hmem, ?_⟩
    rw [get_move_nonduel gs h2, hx]
    rfl

/-- Witness for C10 at a concrete input: the single-snake request
cexScoring takes the non-duel path and returns the selected maximum. -/
theorem C10_witness :
    ∃ p, maxByKeyLast Prod.snd
        ((FloodFillChecker.new cexScoring).get_safe_moves cexScoring.you.head) =
          some p ∧
      p ∈ (FloodFillChecker.new cexScoring).get_safe_moves cexScoring.you.head ∧
      get_move cexScoring = some p.1 :=
  C10_four_candidates.2 cexScoring (by decide)

/-- Claim C5 (corrected): each duel payoff cell (i, j) is the sum of the
boundary terms, -1000 per self non-tail segment on self's new position,
-500 per opponent non-tail segment on self's new position, +500 per
opponent non-tail segment on the OPPONENT'S OWN new position (not on
self's body as claimed), the head-to-head term comparing the snakes'
length fields, the per-food term, and the +5 low-health term. -/
theorem C5_payoff_decomposition :
    (∀ (gs : GameRequest) (my_pos opp_pos : Coord)
        (my_snake opponent : Battlesnake),
      calculate_payoff gs my_pos opp_pos my_snake opponent =
        boundary_term gs my_pos opp_pos + my_body_term my_snake my_pos +
        opp_body_term opponent my_pos opp_pos +
        head_to_head_term my_snake opponent my_pos opp_pos +
        food_term gs my_pos opp_pos + health_term my_snake opponent) ∧
    (∀ (gs : GameRequest) (my_snake opponent : Battlesnake)
        (m : Fin 4 → Fin 4 → Rat) (i j : Fin 4),
      create_payoff_matrix gs my_snake opponent = some m →
      m i j = calculate_payoff gs (duelCellPos my_snake.head i)
        (duelCellPos opponent.head j) my_snake opponent) := by
  constructor
  · intro gs my_pos opp_pos my_snake opponent
    unfold calculate_payoff boundary_term my_body_term opp_body_term
      head_to_head_term food_term health_term
    dsimp only
    rw [payoff_my_fold, payoff_opp_fold, payoff_food_fold]
    split_ifs <;> ring
  · intro gs my_snake opponent m i j h
    unfold create_payoff_matrix at h
    split at h
    · cases h
    · cases h
      rfl

/-- Counterexample to claim C5 as stated: in cexDuel, at the cell where
self moves right - to (1,0) - and the opponent moves left - onto (0,1),
which is a non-tail segment of the SELF snake's body - the code's payoff
is 0, while the claim's formula (+500 for the opponent moving into self's
body) yields 500. -/
theorem C5_counterexample :
    (create_payoff_matrix cexDuel cexDuel.you cexDuelOpp).map
        (fun m => m 3 2) = some 0 ∧
    claimedPayoff cexDuel (Coord.mk 1 0) (Coord.mk 0 1) cexDuel.you
        cexDuelOpp = 500 ∧
    duelCellPos cexDuel.you.head 3 = Coord.mk 1 0 ∧
    duelCellPos cexDuelOpp.head 2 = Coord.mk 0 1 := by
  have hd1 : cexDuel.you.body.dropLast = [Coord.mk 0 0, Coord.mk 0 1] := by
    decide
  have hd2 : cexDuelOpp.body.dropLast = [Coord.mk 1 1] := by decide
  have h1 : create_payoff_matrix cexDuel cexDuel.you cexDuelOpp =
      some (fun i j => calculate_payoff cexDuel
        (duelCellPos cexDuel.you.head i) (duelCellPos cexDuelOpp.head j)
        cexDuel.you cexDuelOpp) := rfl
  refine ⟨?_, ?_, by decide, by decide⟩
  · rw [h1]
    show some (calculate_payoff cexDuel (duelCellPos cexDuel.you.head 3)
      (duelCellPos cexDuelOpp.head 2) cexDuel.you cexDuelOpp) = some 0
    have hp3 : duelCellPos cexDuel.you.head 3 = Coord.mk 1 0 := by decide
    have hp2 : duelCellPos cexDuelOpp.head 2 = Coord.mk 0 1 := by decide
    rw [hp3, hp2]
    norm_num [calculate_payoff, hd1, hd2, cexDuel, cexDuelMe, cexDuelOpp,
      mkSnake]
  · norm_num [claimedPayoff, hd1, hd2, cexDuel, cexDuelMe, cexDuelOpp,
      mkSnake]

/-- Witness for C5 at a concrete input: the payoff matrix of cexDuel
exists (both bodies non-empty) and its cell (3,2) is the payoff of the
corresponding pair of new positions. -/
theorem C5_witness :
    create_payoff_matrix cexDuel cexDuel.you cexDuelOpp =
      some (fun i j => calculate_payoff cexDuel
        (duelCellPos cexDuel.you.head i) (duelCellPos cexDuelOpp.head j)
        cexDuel.you cexDuelOpp) ∧
    (fun (i j : Fin 4) => calculate_payoff cexDuel
        (duelCellPos cexDuel.you.head i) (duelCellPos cexDuelOpp.head j)
        cexDuel.you cexDuelOpp) 3 2 =
      calculate_payoff cexDuel (duelCellPos cexDuel.you.head 3)
        (duelCellPos cexDuelOpp.head 2) cexDuel.you cexDuelOpp :=
  ⟨rfl, C5_payoff_decomposition.2 cexDuel cexDuel.you cexDuelOpp _ 3 2 rfl⟩

/-- Claim C1 (corrected): in the non-duel path each of the four
candidates, listed in order up, down, left, right, is scored by exactly
the flood-fill reachable-space count of its resulting position - which is
0, not negative infinity, when that position is out of bounds or blocked,
and carries no 5x weight, food, threat or center term - and get_move
returns the direction of a candidate attaining the maximal count. -/
theorem C1_flood_fill_argmax (gs : GameRequest)
    (h2 : gs.board.snakes.length ≠ 2) :
    ∃ p : String × Nat,
      get_move gs = some p.1 ∧
      p ∈ (FloodFillChecker.new gs).get_safe_moves gs.you.head ∧
      (∀ q ∈ (FloodFillChecker.new gs).get_safe_moves gs.you.head,
        q.2 ≤ p.2) ∧
      (FloodFillChecker.new gs).get_safe_moves gs.you.head =
        [("up", (FloodFillChecker.new gs).flood_fill
            (Coord.mk gs.you.head.x (gs.you.head.y + 1))),
         ("down", (FloodFillChecker.new gs).flood_fill
            (Coord.mk gs.you.head.x (gs.you.head.y - 1))),
         ("left", (FloodFillChecker.new gs).flood_fill
            (Coord.mk (gs.you.head.x - 1) gs.you.head.y)),
         ("right", (FloodFillChecker.new gs).flood_fill
            (Coord.mk (gs.you.head.x + 1) gs.you.head.y))] := by
  obtain ⟨x, hx⟩ := maxByKeyLast_isSome Prod.snd
    ((FloodFillChecker.new gs).get_safe_moves gs.you.head)
    (by rw [safe_moves_eq]; simp)
  have hla := maxByKeyLast_lastArgmax Prod.snd _ x hx
  refine ⟨x, ?_, lastArgmax_mem hla, lastArgmax_le hla, safe_moves_eq _ _⟩
  rw [get_move_nonduel gs h2, hx]
  rfl

/-- Witness for C1's corrected statement at a concrete input: the
single-snake request cexScoring. -/
theorem C1_witness :
    cexScoring.board.snakes.length ≠ 2 ∧
    ∃ p : String × Nat,
      get_move cexScoring = some p.1 ∧
      p ∈ (FloodFillChecker.new cexScoring).get_safe_moves
        cexScoring.you.head ∧
      (∀ q ∈ (FloodFillChecker.new cexScoring).get_safe_moves
        cexScoring.you.head, q.2 ≤ p.2) ∧
      (FloodFillChecker.new cexScoring).get_safe_moves cexScoring.you.head =
        [("up", (FloodFillChecker.new cexScoring).flood_fill
            (Coord.mk cexScoring.you.head.x (cexScoring.you.head.y + 1))),
         ("down", (FloodFillChecker.new cexScoring).flood_fill
            (Coord.mk cexScoring.you.head.x (cexScoring.you.head.y - 1))),
         ("left", (FloodFillChecker.new cexScoring).flood_fill
            (Coord.mk (cexScoring.you.head.x - 1) cexScoring.you.head.y)),
         ("right", (FloodFillChecker.new cexScoring).flood_fill
            (Coord.mk (cexScoring.you.head.x + 1) cexScoring.you.head.y))] :=
  ⟨by decide, C1_flood_fill_argmax cexScoring (by decide)⟩

/-- Counterexample to claim C1 as stated: on cexScoring the spec's score -
5 x reachable space + food term + threat term + center term, negative
infinity when unsafe - is strictly larger for down than for right (down
lands on the exact board center), yet get_move returns "right", so the
returned direction is not the arg-max of the spec's scores. -/
theorem C1_counterexample :
    get_move cexScoring = some "right" ∧
    specScore cexScoring Dir.right < specScore cexScoring Dir.down := by
  constructor
  · decide
  · have hp_r : dirPos cexScoring Dir.right = Coord.mk 3 3 := by decide
    have hp_d : dirPos cexScoring Dir.down = Coord.mk 2 2 := by decide
    have hsafe_r : specSafe cexScoring (Coord.mk 3 3) := by decide
    have hsafe_d : specSafe cexScoring (Coord.mk 2 2) := by decide
    have hff_r : (specChecker cexScoring).flood_fill (Coord.mk 3 3) = 16 := by
      decide
    have hff_d : (specChecker cexScoring).flood_fill (Coord.mk 2 2) = 16 := by
      decide
    have hfood_r : specFoodTerm cexScoring Dir.right (Coord.mk 3 3) = 0 := rfl
    have hfood_d : specFoodTerm cexScoring Dir.down (Coord.mk 2 2) = 0 := rfl
    have hth_r : specThreat cexScoring (Coord.mk 3 3) = 0 := rfl
    have hth_d : specThreat cexScoring (Coord.mk 2 2) = 0 := rfl
    have hsq : (0 : ℝ) < Real.sqrt 2 := Real.sqrt_pos.2 (by norm_num)
    have hcen_r : specCenter cexScoring (Coord.mk 3 3) =
        25 - 2 * Real.sqrt 2 := by
      have harg : (((Coord.mk (3 : Int) 3).x : ℝ) -
          (cexScoring.board.width : ℝ) / 2) ^ 2 +
          (((Coord.mk (3 : Int) 3).y : ℝ) -
          (cexScoring.board.height : ℝ) / 2) ^ 2 = 2 := by
        norm_num [cexScoring]
      unfold specCenter
      rw [harg]
    have hcen_d : specCenter cexScoring (Coord.mk 2 2) = 25 := by
      have harg : (((Coord.mk (2 : Int) 2).x : ℝ) -
          (cexScoring.board.width : ℝ) / 2) ^ 2 +
          (((Coord.mk (2 : Int) 2).y : ℝ) -
          (cexScoring.board.height : ℝ) / 2) ^ 2 = 0 := by
        norm_num [cexScoring]
      unfold specCenter
      rw [harg, Real.sqrt_zero]
      norm_num
    unfold specScore
    rw [hp_r, hp_d, if_pos hsafe_r, if_pos hsafe_d, hff_r, hff_d, hfood_r,
      hfood_d, hth_r, hth_d, hcen_r, hcen_d]
    rw [EReal.coe_lt_coe_iff]
    push_cast
    linarith

/-- Claim C2 (corrected): when all four candidates are fatal - each
flood-fill space is 0, the minimum possible - the non-duel path returns
"right", the LAST of the four tied candidates, not the claimed fixed
fallback "up"; it still returns a direction rather than an error. -/
theorem C2_all_fatal_right (gs : GameRequest)
    (h2 : gs.board.snakes.length ≠ 2)
    (hz : ∀ q ∈ (FloodFillChecker.new gs).get_safe_moves gs.you.head,
      q.2 = 0) :
    get_move gs = some "right" := by
  rw [get_move_nonduel gs h2]
  rw [safe_moves_eq] at hz ⊢
  have h1 : (FloodFillChecker.new gs).flood_fill
      (Coord.mk gs.you.head.x (gs.you.head.y + 1)) = 0 :=
    hz ("up", (FloodFillChecker.new gs).flood_fill
      (Coord.mk gs.you.head.x (gs.you.head.y + 1))) (by simp)
  have hd : (FloodFillChecker.new gs).flood_fill
      (Coord.mk gs.you.head.x (gs.you.head.y - 1)) = 0 :=
    hz ("down", (FloodFillChecker.new gs).flood_fill
      (Coord.mk gs.you.head.x (gs.you.head.y - 1))) (by simp)
  have hl : (FloodFillChecker.new gs).flood_fill
      (Coord.mk (gs.you.head.x - 1) gs.you.head.y) = 0 :=
    hz ("left", (FloodFillChecker.new gs).flood_fill
      (Coord.mk (gs.you.head.x - 1) gs.you.head.y)) (by simp)
  have hr : (FloodFillChecker.new gs).flood_fill
      (Coord.mk (gs.you.head.x + 1) gs.you.head.y) = 0 :=
    hz ("right", (FloodFillChecker.new gs).flood_fill
      (Coord.mk (gs.you.head.x + 1) gs.you.head.y)) (by simp)
  rw [h1, hd, hl, hr]
  rfl

/-- Counterexample to claim C2 as stated: on the 1 x 1 board cexAllFatal
all four candidates are fatal (every flood-fill space is 0), yet get_move
returns "right", not the claimed fallback "up". -/
theorem C2_counterexample :
    (∀ q ∈ (FloodFillChecker.new cexAllFatal).get_safe_moves
      cexAllFatal.you.head, q.2 = 0) ∧
    get_move cexAllFatal = some "right" ∧
    get_move cexAllFatal ≠ some "up" := by decide

/-- Witness for C2's corrected statement at a concrete input: the 1 x 1
board with every candidate fatal. -/
theorem C2_witness :
    cexAllFatal.board.snakes.length ≠ 2 ∧
    get_move cexAllFatal = some "right" :=
  ⟨by decide, C2_all_fatal_right cexAllFatal (by decide) (by decide)⟩

/-- Claim C3 (corrected): on numerically equal maximal scores the
returned direction is the LAST-listed tied candidate in the fixed order
up, down, left, right - Rust's max_by and max_by_key keep the later
element on ties - not the first-listed: in the non-duel path the chosen
pair is a LastArgmax of the candidate list under the flood-fill count, in
the duel path the chosen index is a LastArgmax of the enumerated
normalized row values. -/
theorem C3_last_tiebreak (gs : GameRequest) (hv : ValidSnapshot gs) :
    ∃ d, get_move gs = some d ∧
      ((gs.board.snakes.length ≠ 2 →
        ∃ s, LastArgmax Prod.snd
          ((FloodFillChecker.new gs).get_safe_moves gs.you.head) (d, s)) ∧
       (gs.board.snakes.length = 2 →
        ∃ strat i q, duel_strategy gs = some strat ∧
          LastArgmax Prod.snd strat.enum (i, q) ∧
          moveNames.get? i = some d)) := by
  by_cases h2 : gs.board.snakes.length = 2
  · obtain ⟨strat, x, d, hstr, hx, hget, hgm, -⟩ :=
      duel_path_analysis gs hv h2
    refine ⟨d, hgm, fun h => absurd h2 h, fun _ =>
      ⟨strat, x.1, x.2, hstr, ?_, hget⟩⟩
    exact maxByKeyLast_lastArgmax Prod.snd strat.enum x hx
  · obtain ⟨x, hx⟩ := maxByKeyLast_isSome Prod.snd
      ((FloodFillChecker.new gs).get_safe_moves gs.you.head)
      (by rw [safe_moves_eq]; simp)
    have hla := maxByKeyLast_lastArgmax Prod.snd _ x hx
    refine ⟨x.1, ?_, fun _ => ⟨x.2, hla⟩, fun h => absurd h h2⟩
    rw [get_move_nonduel gs h2, hx]
    rfl

/-- Counterexample to claim C3 as stated: on the 3 x 1 board cexTieMax
left and right tie at the maximal flood-fill space 1, and get_move
returns "right" - the later-listed direction - while the claimed priority
ordering up, down, left, right demands the first-listed "left". -/
theorem C3_counterexample :
    (FloodFillChecker.new cexTieMax).get_safe_moves cexTieMax.you.head =
      [("up", 0), ("down", 0), ("left", 1), ("right", 1)] ∧
    get_move cexTieMax = some "right" ∧
    get_move cexTieMax ≠ some "left" := by decide

/-- Witness for C3's corrected statement at a concrete input: the
tie-bearing request cexTieMax. -/
theorem C3_witness :
    ValidSnapshot cexTieMax ∧
    ∃ d, get_move cexTieMax = some d ∧
      ((cexTieMax.board.snakes.length ≠ 2 →
        ∃ s, LastArgmax Prod.snd
          ((FloodFillChecker.new cexTieMax).get_safe_moves
            cexTieMax.you.head) (d, s)) ∧
       (cexTieMax.board.snakes.length = 2 →
        ∃ strat i q, duel_strategy cexTieMax = some strat ∧
          LastArgmax Prod.snd strat.enum (i, q) ∧
          moveNames.get? i = some d)) :=
  ⟨by decide, C3_last_tiebreak cexTieMax (by decide)⟩
